import Mathlib

/-!
Verification development for the SkyCamOS recording and storage lifecycle
engine.  The definitions below are shallow embeddings of the Python services
in the repository (storage_manager.py, storage_pool_service.py,
auto_recording_manager.py, recording_service.py) together with the data
model in app/models.  Filesystem effects (stat, unlink, disk_usage,
subprocess spawning) are made explicit parameters: a deletion attempt is
modelled by a predicate saying whether the unlink call succeeds, disk usage
queries by an optional triple of byte counts, and so on.  Machine integers
are modelled as Nat (Python integers are unbounded); the float quantity
free_gb is modelled as an exact rational.
-/

/-- Embeds the RecordingFile dataclass of storage_manager.py: path, size in
bytes, creation timestamp (seconds, as an abstract Nat), the camera id
parsed from the name, and the lock flag. -/
structure RecordingFile where
  path : String
  size_bytes : Nat
  created_at : Nat
  camera_id : Option Nat
  is_locked : Bool
  deriving DecidableEq

/-- Total size in bytes of a list of recording files, as computed by
sum(f.size_bytes for f in files) in storage_manager.py. -/
def totalSize (files : List RecordingFile) : Nat :=
  (files.map RecordingFile.size_bytes).sum

/-- files.sort(key=lambda f: f.created_at): ascending sort by creation
time.  Python list.sort is a stable sort; the claims below never depend on
the order of ties, so any sort by the same key is an adequate model. -/
def sortByCreated (files : List RecordingFile) : List RecordingFile :=
  List.insertionSort (fun a b => a.created_at ≤ b.created_at) files

/-- The mutable state threaded through a cleanup pass: the in-memory list
of surviving files, the files deleted so far in deletion order, and the
bytes freed so far. -/
structure CleanupState where
  files : List RecordingFile
  deleted : List RecordingFile
  freed_bytes : Nat
  deriving DecidableEq

/-- One iteration of the retention loop of StorageManager.cleanup (phase 1):
a file older than the cutoff and not locked is unlinked; on success it is
removed from the list and counted, on an OSError it is only logged.  delOk
models whether the unlink call succeeds for a given file. -/
def retentionStep (cutoff : Nat) (delOk : RecordingFile → Bool)
    (st : CleanupState) (f : RecordingFile) : CleanupState :=
  if f.created_at < cutoff ∧ f.is_locked = false then
    if delOk f then
      { files := st.files.erase f
        deleted := st.deleted ++ [f]
        freed_bytes := st.freed_bytes + f.size_bytes }
    else st
  else st

/-- Phase 1 of StorageManager.cleanup: iterate over a snapshot of the
sorted file list (for file in files[:]) deleting unlocked files older than
the retention cutoff. -/
def retentionPhase (cutoff : Nat) (delOk : RecordingFile → Bool)
    (files : List RecordingFile) : CleanupState :=
  files.foldl (retentionStep cutoff delOk) ⟨files, [], 0⟩

/-- Phase 2 of StorageManager.cleanup: while the running total exceeds
max_storage_bytes and files remain, find the first (oldest, the list being
sorted) unlocked file, attempt to unlink it, and on success drop it from
the list and from the running total; if no unlocked file exists the for
loop's else clause breaks out.  The Python loop has no fuel: the fuel
argument lets the embedding return none when the loop is still running
after that many iterations, so nontermination is observable. -/
def capacityLoop (maxBytes : Nat) (delOk : RecordingFile → Bool) :
    Nat → CleanupState → Nat → Option CleanupState
  | 0, _, _ => none
  | fuel + 1, st, total =>
    if total > maxBytes ∧ st.files ≠ [] then
      match st.files.find? (fun f => !f.is_locked) with
      | none => some st
      | some f =>
        if delOk f then
          capacityLoop maxBytes delOk fuel
            { files := st.files.erase f
              deleted := st.deleted ++ [f]
              freed_bytes := st.freed_bytes + f.size_bytes }
            (total - f.size_bytes)
        else
          capacityLoop maxBytes delOk fuel st total
    else
      some st

/-- The dictionary returned by StorageManager.cleanup. -/
structure CleanupResult where
  deleted_count : Nat
  freed_bytes : Nat
  remaining_files : Nat
  remaining_bytes : Nat
  deriving DecidableEq

/-- StorageManager.cleanup: sort by creation time, run the retention phase,
then the capacity phase on what remains; none when the capacity loop is
still spinning after the given fuel. -/
def StorageManager.cleanup (maxBytes cutoff : Nat) (delOk : RecordingFile → Bool)
    (fuel : Nat) (files : List RecordingFile) : Option CleanupResult :=
  let st1 := retentionPhase cutoff delOk (sortByCreated files)
  match capacityLoop maxBytes delOk fuel st1 (totalSize st1.files) with
  | none => none
  | some st2 =>
    some ⟨st2.deleted.length, st2.freed_bytes, st2.files.length, totalSize st2.files⟩

/-- One iteration of StorageManager.cleanup_camera: an unlocked file whose
parsed camera id matches is unlinked; failures are logged and skipped. -/
def cleanupCameraStep (cid : Nat) (delOk : RecordingFile → Bool)
    (acc : List RecordingFile × Nat) (f : RecordingFile) :
    List RecordingFile × Nat :=
  if f.camera_id = some cid ∧ f.is_locked = false then
    if delOk f then (acc.1 ++ [f], acc.2 + f.size_bytes) else acc
  else acc

/-- StorageManager.cleanup_camera: one pass over all files, unlinking every
unlocked file whose parsed camera id equals the given id; returns the list
of files actually deleted and the bytes freed. -/
def StorageManager.cleanupCamera (cid : Nat) (delOk : RecordingFile → Bool)
    (files : List RecordingFile) : List RecordingFile × Nat :=
  files.foldl (cleanupCameraStep cid delOk) ([], 0)

/-- The eviction loop of StorageManager.ensure_space: walk the files sorted
oldest first, skip locked ones, unlink the rest, stopping once the freed
byte count covers the shortfall; unlink errors are logged and the loop
moves on.  Returns the bytes freed and the files deleted. -/
def ensureSpaceLoop (needed : Nat) (delOk : RecordingFile → Bool) :
    List RecordingFile → Nat → List RecordingFile → Nat × List RecordingFile
  | [], freed, del => (freed, del)
  | f :: rest, freed, del =>
    if f.is_locked then ensureSpaceLoop needed delOk rest freed del
    else if delOk f then
      if freed + f.size_bytes ≥ needed then (freed + f.size_bytes, del ++ [f])
      else ensureSpaceLoop needed delOk rest (freed + f.size_bytes) (del ++ [f])
    else ensureSpaceLoop needed delOk rest freed del

/-- StorageManager.ensure_space: succeed immediately when free disk space
already covers the request, otherwise evict oldest-first unlocked files
until the shortfall is covered; returns whether it was and the deleted
files. -/
def StorageManager.ensureSpace (freeBytes requiredBytes : Nat)
    (delOk : RecordingFile → Bool) (files : List RecordingFile) :
    Bool × List RecordingFile :=
  if freeBytes ≥ requiredBytes then (true, [])
  else
    let needed := requiredBytes - freeBytes
    let r := ensureSpaceLoop needed delOk (sortByCreated files) 0 []
    (decide (r.1 ≥ needed), r.2)

/-- Embeds the StoragePool model (app/models/storage_pool.py): identity,
path, limits, priority, flags, string status and cached usage statistics.
Timestamps and the display name are irrelevant to the claims and omitted. -/
structure StoragePool where
  id : Nat
  path : String
  max_size_gb : Nat
  min_free_gb : Nat
  retention_days : Nat
  priority : Nat
  is_default : Bool
  is_enabled : Bool
  status : String
  total_size_bytes : Nat
  used_size_bytes : Nat
  free_size_bytes : Nat
  deriving DecidableEq

/-- StoragePool.free_gb: free_size_bytes / 1024 ** 3, an exact rational
standing in for the Python float. -/
def StoragePool.free_gb (p : StoragePool) : ℚ :=
  (p.free_size_bytes : ℚ) / (1024 ^ 3)

/-- StoragePool.is_available: is_enabled and status == "active" and
free_gb >= min_free_gb.  The comparison free_size_bytes / 2^30 >= min_free_gb
is stated over the integers as min_free_gb * 2^30 <= free_size_bytes; the
lemma isAvailable_free_gb below proves this is the same test as the
rational (hence, the division by a power of two being exact, the float)
one. -/
def StoragePool.isAvailable (p : StoragePool) : Bool :=
  p.is_enabled && (p.status == "active")
    && decide (p.min_free_gb * 1024 ^ 3 ≤ p.free_size_bytes)

/-- StoragePoolService.get_all_pools: all pools ordered by priority
ascending (the database ORDER BY leaves the order of ties unspecified, and
no claim depends on it). -/
def getAllPools (pools : List StoragePool) : List StoragePool :=
  List.insertionSort (fun a b => a.priority ≤ b.priority) pools

/-- StoragePoolService.get_best_available_pool: first pool in priority
order that is_available holds for, none otherwise. -/
def getBestAvailablePool (pools : List StoragePool) : Option StoragePool :=
  (getAllPools pools).find? StoragePool.isAvailable

/-- StoragePoolService.update_pool_stats: re-query disk usage for the
pool's path; when the query succeeds, store the three byte counts and
recompute status (full when free_gb < min_free_gb, else error when the
path no longer exists, else active).  When _get_disk_stats fails it
returns None and the whole update, the status recomputation included, is
skipped.  diskStats models the shutil.disk_usage result, pathExists the
os.path.exists check; the free_gb < min_free_gb float comparison is stated
over the integers (see isAvailable_free_gb for the equivalence). -/
def updatePoolStats (p : StoragePool) (diskStats : Option (Nat × Nat × Nat))
    (pathExists : Bool) : StoragePool :=
  match diskStats with
  | none => p
  | some (t, u, fr) =>
    let p1 := { p with total_size_bytes := t, used_size_bytes := u, free_size_bytes := fr }
    if p1.free_size_bytes < p1.min_free_gb * 1024 ^ 3 then { p1 with status := "full" }
    else if pathExists = false then { p1 with status := "error" }
    else { p1 with status := "active" }

/-- Embeds CameraStorageAssignment (app/models/storage_pool.py): the
camera-to-pool relation with its is_primary flag. -/
structure Assignment where
  camera_id : Nat
  storage_pool_id : Nat
  is_primary : Bool
  deriving DecidableEq

/-- The WHERE clause used by assign_camera_to_pool and get_camera_pool:
rows whose camera_id matches and whose is_primary flag is set. -/
def primaryFor (cid : Nat) (a : Assignment) : Bool :=
  decide (a.camera_id = cid) && a.is_primary

/-- StoragePoolService.assign_camera_to_pool: when is_primary is set, look
up the existing primary assignment of the camera with scalar_one_or_none
(raising, hence none here, if the at-most-one-primary invariant is already
broken), delete it if present, then insert the new row. -/
def assignCameraToPool (db : List Assignment) (cid pid : Nat) (isPrim : Bool) :
    Option (List Assignment) :=
  if isPrim then
    match db.filter (primaryFor cid) with
    | [] => some (db ++ [⟨cid, pid, true⟩])
    | [e] => some (db.erase e ++ [⟨cid, pid, true⟩])
    | _ => none
  else
    some (db ++ [⟨cid, pid, isPrim⟩])

/-- Embeds the Camera model fields the supervisor reads and writes. -/
structure Camera where
  id : Nat
  is_enabled : Bool
  status : String
  is_recording : Bool
  deriving DecidableEq

/-- Adding a camera id to the supervisor's in-memory set (Python set.add):
a no-op when already present. -/
def recAdd (rec : List Nat) (i : Nat) : List Nat :=
  if i ∈ rec then rec else rec ++ [i]

/-- Removing a camera id from the set (Python set.discard). -/
def recDiscard (rec : List Nat) (i : Nat) : List Nat :=
  rec.filter (fun j => decide (j ≠ i))

/-- AutoRecordingManager._start_auto_recording: ask the recording service
to start; on success add the camera to the set, mark it recording and set
status to recording; on failure only log.  startOk models whether
recording_service.start_recording returns info for that camera. -/
def startAutoRecording (startOk : Nat → Bool) (c : Camera) (rec : List Nat) :
    Camera × List Nat :=
  if startOk c.id then
    ({ c with is_recording := true, status := "recording" }, recAdd rec c.id)
  else (c, rec)

/-- AutoRecordingManager._stop_auto_recording: stop the recorder, discard
the id from the set, clear is_recording, and when the status was
"recording" set it to "online" when the camera is still enabled and
"offline" otherwise. -/
def stopAutoRecording (c : Camera) (rec : List Nat) : Camera × List Nat :=
  let c1 := { c with is_recording := false }
  let c2 :=
    if c1.status = "recording" then
      { c1 with status := if c1.is_enabled then "online" else "offline" }
    else c1
  (c2, recDiscard rec c.id)

/-- The result of one supervisor poll: the updated camera rows, the updated
recording set, and the camera ids the poll invoked start and stop for. -/
structure SupState where
  cameras : List Camera
  recording : List Nat
  starts : List Nat
  stops : List Nat
  deriving DecidableEq

/-- AutoRecordingManager._process_camera: derive should_record from status
and enabled flag and apply the start or stop transition; returns the
updated camera, the updated set, and the start and stop invocations. -/
def processCamera (startOk : Nat → Bool) (c : Camera) (rec : List Nat) :
    Camera × List Nat × List Nat × List Nat :=
  let isRec := c.id ∈ rec
  let should := (c.status = "online" ∨ c.status = "recording") ∧ c.is_enabled = true
  if should ∧ ¬isRec then
    let r := startAutoRecording startOk c rec
    (r.1, r.2, [c.id], [])
  else if ¬should ∧ isRec then
    let r := stopAutoRecording c rec
    (r.1, r.2, [], [c.id])
  else (c, rec, [], [])

/-- AutoRecordingManager._check_cameras: the poll queries only cameras with
is_enabled = true (select(Camera).where(Camera.is_enabled == True)) and
processes each in turn; disabled cameras are not visited at all. -/
def checkLoop (startOk : Nat → Bool) : List Camera → List Nat → SupState
  | [], rec => ⟨[], rec, [], []⟩
  | c :: rest, rec =>
    if c.is_enabled then
      let p := processCamera startOk c rec
      let r := checkLoop startOk rest p.2.1
      ⟨p.1 :: r.cameras, r.recording, p.2.2.1 ++ r.starts, p.2.2.2 ++ r.stops⟩
    else
      let r := checkLoop startOk rest rec
      ⟨c :: r.cameras, r.recording, r.starts, r.stops⟩

/-- One supervisor poll over the camera table with the given in-memory
recording set. -/
def checkCameras (startOk : Nat → Bool) (cams : List Camera) (rec : List Nat) :
    SupState :=
  checkLoop startOk cams rec

/-- The observable outcome of RecordingService.start_recording: the
recorder map afterwards (camera id mapped to the recorder's is_recording
flag), the returned recording info (the camera id when a dict is returned,
none for None), and how many FFmpegRecorder instances the call created and
started. -/
structure StartOutcome where
  recorders : List (Nat × Bool)
  result : Option Nat
  spawned : Nat
  deriving DecidableEq

/-- Python dict assignment self._recorders[camera.id] = recorder: replaces
any previous binding of the key. -/
def dictInsert (m : List (Nat × Bool)) (k : Nat) (v : Bool) : List (Nat × Bool) :=
  (k, v) :: m.filter (fun e => decide (e.1 ≠ k))

/-- FFmpegRecorder.start on a freshly constructed recorder: _is_recording
starts out false, so the guard falls through; the directory creation and
task spawn either succeed (recorder now recording, returns True) or raise,
in which case stop() resets the flag and the call returns False.  spawnOk
models whether that setup succeeds. -/
def recorderStart (spawnOk : Bool) : Bool × Bool :=
  if spawnOk then (true, true) else (false, false)

/-- RecordingService.start_recording: a no-op returning None when the map
already holds a recorder for the camera whose is_recording flag is set;
otherwise construct a recorder, start it, and on success store it in the
map and return the recording info. -/
def RecordingService.startRecording (recs : List (Nat × Bool)) (cid : Nat)
    (spawnOk : Bool) : StartOutcome :=
  if (recs.lookup cid).getD false then ⟨recs, none, 0⟩
  else
    let r := recorderStart spawnOk
    if r.2 then ⟨dictInsert recs cid r.1, some cid, 1⟩
    else ⟨recs, none, 1⟩

/-- The ten decimal digit characters, the building block of Python's str
on a nonnegative int. -/
def digitChar (d : Nat) : Char :=
  if d = 0 then '0' else if d = 1 then '1' else if d = 2 then '2'
  else if d = 3 then '3' else if d = 4 then '4' else if d = 5 then '5'
  else if d = 6 then '6' else if d = 7 then '7' else if d = 8 then '8'
  else if d = 9 then '9' else '?'

/-- Decimal digits of n, least significant first, computed with explicit
fuel so the definition is structural and evaluates in the kernel; with
fuel at least n it agrees with Nat.digits 10 (proved below). -/
def digitsRevFuel : Nat → Nat → List Nat
  | 0, _ => []
  | fuel + 1, n => if n = 0 then [] else n % 10 :: digitsRevFuel fuel (n / 10)

/-- Python str(n) for a nonnegative int: its decimal digits, most
significant first. -/
def natChars (n : Nat) : List Char :=
  if n = 0 then ['0'] else ((digitsRevFuel n n).reverse.map digitChar)

/-- Python format specifier :02d used by strftime's %m, %d, %H, %M, %S:
zero-pad to two characters. -/
def pad2 (n : Nat) : List Char :=
  if n < 10 then '0' :: natChars n else natChars n

/-- strftime %Y%m%d as used in the segment filename. -/
def dateChars (y mo d : Nat) : List Char :=
  natChars y ++ pad2 mo ++ pad2 d

/-- strftime %H%M%S as used in the segment filename. -/
def timeChars (h mi s : Nat) : List Char :=
  pad2 h ++ pad2 mi ++ pad2 s

/-- datetime.utcnow().strftime("%Y%m%d_%H%M%S") in
FFmpegRecorder._start_new_segment. -/
def strftimeTS (y mo d h mi s : Nat) : List Char :=
  dateChars y mo d ++ '_' :: timeChars h mi s

/-- The segment filename generated by FFmpegRecorder._start_new_segment:
camera_{camera_id}_{timestamp}.mkv. -/
def segmentFilename (cid y mo d h mi s : Nat) : List Char :=
  "camera_".data ++ natChars cid ++ '_' :: strftimeTS y mo d h mi s ++ ".mkv".data

/-- pathlib's Path.stem: the name without its last suffix (for names with
an extension, everything before the last dot). -/
def stemOf (l : List Char) : List Char :=
  if '.' ∈ l then ((l.reverse.dropWhile (fun c => decide (c ≠ '.'))).tail).reverse
  else l

/-- A decimal digit character, the character class Python's int() accepts
in the cases arising here. -/
def isDigitCh (c : Char) : Bool :=
  decide (48 ≤ c.toNat) && decide (c.toNat ≤ 57)

/-- Python int(s) on the strings arising from the filename convention: a
nonempty all-digit string parses to its decimal value, anything else
raises (none).  Sign, whitespace and underscore-grouping acceptance of
int() cannot occur in a part produced by splitting on underscores. -/
def pyInt? (s : List Char) : Option Nat :=
  if s ≠ [] ∧ s.all isDigitCh then
    some (s.foldl (fun a c => 10 * a + (c.toNat - 48)) 0)
  else none

/-- Python str.split("_"): split at every underscore, keeping empty
pieces. -/
def splitU : List Char → List (List Char)
  | [] => [[]]
  | c :: rest =>
    if c = '_' then [] :: splitU rest
    else
      match splitU rest with
      | [] => [[c]]
      | p :: ps => (c :: p) :: ps

/-- The camera-id inference of RecordingFile.from_path: take the stem, and
when it starts with camera_ and splitting on underscores yields at least
two parts, parse the second part with int(); any parse failure leaves the
camera id unknown. -/
def extractCameraId (fname : List Char) : Option Nat :=
  let name := stemOf fname
  if name.take 7 = "camera_".data then
    match splitU name with
    | _ :: p1 :: _ => pyInt? p1
    | _ => none
  else none

/-- The per-camera directory RecordingService.start_recording creates and
hands to the recorder: settings.recordings_dir / camera_{id}. -/
def cameraDir (recordingsDir : List Char) (cid : Nat) : List Char :=
  recordingsDir ++ '/' :: ("camera_".data ++ natChars cid)

/-- The full path of a segment produced by FFmpegRecorder._start_new_segment:
output_dir / filename. -/
def segmentPath (outputDir : List Char) (cid y mo d h mi s : Nat) : List Char :=
  outputDir ++ '/' :: segmentFilename cid y mo d h mi s

/-- StoragePoolService.get_pool: select by id. -/
def getPool (pools : List StoragePool) (pid : Nat) : Option StoragePool :=
  pools.find? (fun p => decide (p.id = pid))

/-- StoragePoolService.get_default_pool: the pool flagged default, else the
lowest-priority enabled pool, else nothing. -/
def getDefaultPool (pools : List StoragePool) : Option StoragePool :=
  match pools.find? (fun p => p.is_default) with
  | some p => some p
  | none => (getAllPools pools).find? (fun p => p.is_enabled)

/-- StoragePoolService.get_camera_pool: the primary-assigned pool of the
camera, or the default pool when unassigned. -/
def getCameraPool (asg : List Assignment) (pools : List StoragePool) (cid : Nat) :
    Option StoragePool :=
  match asg.find? (primaryFor cid) with
  | some a => getPool pools a.storage_pool_id
  | none => getDefaultPool pools

/-- The dated directory StoragePoolService.get_recording_path resolves to:
base / camera_{id} / continuous / year / month / day, with the camera's
pool path as base (settings.recordings_dir when no pool resolves). -/
def getRecordingDir (asg : List Assignment) (pools : List StoragePool)
    (recordingsDir : List Char) (cid y mo d : Nat) : List Char :=
  let base :=
    match getCameraPool asg pools cid with
    | some p => p.path.data
    | none => recordingsDir
  base ++ '/' :: ("camera_".data ++ natChars cid) ++ '/' :: "continuous".data
    ++ '/' :: natChars y ++ '/' :: pad2 mo ++ '/' :: pad2 d

/-- The integer comparison used in isAvailable and updatePoolStats is the
source's rational comparison min_free_gb <= free_size_bytes / 1024 ** 3. -/
theorem isAvailable_free_gb (p : StoragePool) :
    (p.min_free_gb * 1024 ^ 3 ≤ p.free_size_bytes) ↔
      ((p.min_free_gb : ℚ) ≤ p.free_gb) := by
  rw [StoragePool.free_gb, le_div_iff₀ (by norm_num)]
  exact_mod_cast Iff.rfl

/-- C6 counterexample: a pool whose disk-usage re-query fails (the path is
gone, _get_disk_stats returns None) keeps its previous status: nothing is
degraded to error, the record is returned untouched. -/
theorem updatePoolStats_statfail_keeps_status :
    updatePoolStats ⟨3, "/gone", 0, 10, 30, 100, false, true, "active", 5, 5, 0⟩
        none false =
      ⟨3, "/gone", 0, 10, 30, 100, false, true, "active", 5, 5, 0⟩ ∧
    (updatePoolStats ⟨3, "/gone", 0, 10, 30, 100, false, true, "active", 5, 5, 0⟩
        none false).status ≠ "error" := by
  exact ⟨rfl, by decide⟩

/-- C6 (amended): update_pool_stats recomputes the status only when the
disk-usage query succeeds, as full when the refreshed free space is below
the min_free floor, else error when the path does not exist, else active;
when the query fails the pool is returned unchanged (no exception, but no
degradation either). -/
theorem updatePoolStats_status_spec :
    ∀ (p : StoragePool) (t u fr : Nat) (pe : Bool),
      updatePoolStats p none pe = p ∧
      (fr < p.min_free_gb * 1024 ^ 3 →
        (updatePoolStats p (some (t, u, fr)) pe).status = "full") ∧
      (p.min_free_gb * 1024 ^ 3 ≤ fr → pe = false →
        (updatePoolStats p (some (t, u, fr)) pe).status = "error") ∧
      (p.min_free_gb * 1024 ^ 3 ≤ fr → pe = true →
        (updatePoolStats p (some (t, u, fr)) pe).status = "active") := by
  intro p t u fr pe
  refine ⟨rfl, ?_, ?_, ?_⟩
  · intro h
    simp only [updatePoolStats]
    rw [if_pos (by simpa using h)]
  · intro h hpe
    subst hpe
    simp only [updatePoolStats]
    rw [if_neg (by simpa using Nat.not_lt.mpr h)]
    rfl
  · intro h hpe
    subst hpe
    simp only [updatePoolStats]
    rw [if_neg (by simpa using Nat.not_lt.mpr h)]
    rfl

/-- Witness for updatePoolStats_status_spec at a concrete pool. -/
theorem updatePoolStats_status_spec_witness :
    (updatePoolStats ⟨3, "/p", 0, 10, 30, 100, false, true, "active", 9, 9, 9⟩
        (some (100, 50, 0)) true).status = "full" :=
  (updatePoolStats_status_spec
    ⟨3, "/p", 0, 10, 30, 100, false, true, "active", 9, 9, 9⟩ 100 50 0 true).2.1
    (by decide)

/-- C7: the capacity loop does not terminate when the deletion of the
oldest unlocked file keeps failing: with one unlocked 2-byte file over a
1-byte budget and an unlink that always raises, the loop reproduces the
same state forever (none for every amount of fuel), instead of completing
the pass as the specification requires. -/
theorem capacityLoop_spins_on_failed_delete :
    ∀ fuel : Nat,
      capacityLoop 1 (fun _ => false) fuel
        ⟨[⟨"camera_1_seg.mkv", 2, 0, some 1, false⟩], [], 0⟩ 2 = none := by
  intro fuel
  induction fuel with
  | zero => rfl
  | succ n ih =>
    rw [capacityLoop]
    simpa [List.find?] using ih

/-- C5: when start_recording has succeeded for a camera, a second call
without an intervening stop is a no-op: it returns None, creates and
starts no second recorder, and leaves the map unchanged with exactly one
entry for the camera. -/
theorem startRecording_second_call_noop :
    ∀ (recs : List (Nat × Bool)) (cid : Nat) (ok1 : Bool),
      (RecordingService.startRecording recs cid ok1).result.isSome = true →
      ∀ ok2 : Bool,
        RecordingService.startRecording
            (RecordingService.startRecording recs cid ok1).recorders cid ok2 =
          ⟨(RecordingService.startRecording recs cid ok1).recorders, none, 0⟩ ∧
        ((RecordingService.startRecording recs cid ok1).recorders.filter
            (fun e => decide (e.1 = cid))).length = 1 := by
  intro recs cid ok1 h ok2
  by_cases hg : (recs.lookup cid).getD false
  · simp [RecordingService.startRecording, hg] at h
  · cases ok1 with
    | false => simp [RecordingService.startRecording, hg, recorderStart] at h
    | true =>
      have hrecs : (RecordingService.startRecording recs cid true).recorders =
          dictInsert recs cid true := by
        simp [RecordingService.startRecording, hg, recorderStart]
      rw [hrecs]
      constructor
      · simp [RecordingService.startRecording, dictInsert, List.lookup]
      · simp only [dictInsert, List.filter]
        rw [List.filter_filter]
        simp [List.filter_eq_nil_iff]

/-- Witness for startRecording_second_call_noop: first call on an empty
map succeeds, the repeated call is the stated no-op. -/
theorem startRecording_second_call_noop_witness :
    RecordingService.startRecording
        (RecordingService.startRecording [] 1 true).recorders 1 true =
      ⟨(RecordingService.startRecording [] 1 true).recorders, none, 0⟩ ∧
    ((RecordingService.startRecording [] 1 true).recorders.filter
        (fun e => decide (e.1 = 1))).length = 1 :=
  startRecording_second_call_noop [] 1 true (by decide) true

/-- A list whose p-filter is the single element e loses its only p-match
when e is erased. -/
theorem filter_erase_of_filter_single {α : Type} [DecidableEq α]
    (p : α → Bool) :
    ∀ (l : List α) (e : α), l.filter p = [e] → (l.erase e).filter p = [] := by
  intro l
  induction l with
  | nil => intro e h; simp at h
  | cons a t ih =>
    intro e h
    by_cases hp : p a
    · rw [List.filter_cons_of_pos hp] at h
      obtain ⟨rfl, ht⟩ : a = e ∧ t.filter p = [] := by
        constructor
        · exact (List.cons_eq_cons.mp h).1
        · exact (List.cons_eq_cons.mp h).2
      rw [List.erase_cons_head]
      exact ht
    · rw [List.filter_cons_of_neg hp] at h
      have hne : a ≠ e := by
        intro hae
        have he : e ∈ t.filter p := by rw [h]; exact List.mem_singleton_self e
        have hpe : p e = true := List.of_mem_filter he
        rw [← hae] at hpe
        exact absurd hpe (by simpa using hp)
      rw [List.erase_cons_tail (by simpa using hne)]
      rw [List.filter_cons_of_neg hp]
      exact ih e h

/-- C8: assigning camera C to pool B as primary when C already has exactly
one primary assignment (to pool A) deletes that assignment and inserts the
new one: afterwards C has exactly one primary assignment and it points to
B. -/
theorem assignCameraToPool_one_primary :
    ∀ (db : List Assignment) (cid pidA pidB : Nat) (e : Assignment),
      db.filter (primaryFor cid) = [e] → e.storage_pool_id = pidA →
      ∃ db', assignCameraToPool db cid pidB true = some db' ∧
        db'.filter (primaryFor cid) = [⟨cid, pidB, true⟩]  := by
  intro db cid pidA pidB e hfilter hA
  refine ⟨db.erase e ++ [⟨cid, pidB, true⟩], ?_, ?_⟩
  · simp only [assignCameraToPool, if_pos]
    rw [hfilter]
  · rw [List.filter_append, filter_erase_of_filter_single (primaryFor cid) db e hfilter]
    simp [primaryFor]

/-- Witness for assignCameraToPool_one_primary: camera 1 primarily
assigned to pool 5 is reassigned to pool 9. -/
theorem assignCameraToPool_one_primary_witness :
    ∃ db', assignCameraToPool [⟨1, 5, true⟩] 1 9 true = some db' ∧
      db'.filter (primaryFor 1) = [⟨1, 9, true⟩] :=
  assignCameraToPool_one_primary [⟨1, 5, true⟩] 1 5 9 ⟨1, 5, true⟩ (by decide) rfl

/-- C2 counterexample: a camera disabled while recording (enabled = false,
still in the supervisor's recording set) is filtered out of the poll's
camera query, so the poll invokes no stop, leaves the camera in the
recording set and touches nothing: the supervisor does not stop cameras
whose enabled flag was cleared. -/
theorem checkCameras_skips_disabled_camera :
    checkCameras (fun _ => true) [⟨1, false, "recording", true⟩] [1] =
      ⟨[⟨1, false, "recording", true⟩], [1], [], []⟩ := by
  decide

/-- Processing one camera never adds or removes another camera's id
from the recording set. -/
theorem processCamera_mem_rec (startOk : Nat → Bool) (d : Camera) (rec : List Nat)
    (i : Nat) (hne : d.id ≠ i) :
    i ∈ (processCamera startOk d rec).2.1 ↔ i ∈ rec := by
  simp only [processCamera, startAutoRecording, stopAutoRecording, recAdd, recDiscard]
  split_ifs <;>
    simp_all [List.mem_filter, List.mem_append, Ne.symm hne]

/-- A poll over cameras none of which carries the id i leaves i's
membership in the recording set unchanged. -/
theorem checkLoop_mem_rec (startOk : Nat → Bool) (i : Nat) :
    ∀ (cams : List Camera) (rec : List Nat), (∀ d ∈ cams, d.id ≠ i) →
      (i ∈ (checkLoop startOk cams rec).recording ↔ i ∈ rec) := by
  intro cams
  induction cams with
  | nil => intro rec h; simp [checkLoop]
  | cons d rest ih =>
    intro rec h
    have hd : d.id ≠ i := h d (List.mem_cons_self d rest)
    have hrest : ∀ x ∈ rest, x.id ≠ i := fun x hx => h x (List.mem_cons_of_mem d hx)
    simp only [checkLoop]
    split
    · rw [show (⟨_, (checkLoop startOk rest (processCamera startOk d rec).2.1).recording,
          _, _⟩ : SupState).recording =
          (checkLoop startOk rest (processCamera startOk d rec).2.1).recording from rfl]
      rw [ih _ hrest, processCamera_mem_rec startOk d rec i hd]
    · exact ih _ hrest

/-- C2 (amended): the poll only reaches enabled cameras, so the stop
transition fires exactly for an enabled camera that is in the recording
set while its status is neither online nor recording; for such a camera
the poll invokes stop, removes it from the recording set and clears
is_recording, leaving the status field as it was (the set-status-to-online
branch of the stop routine is unreachable from the poll, because an
enabled camera whose status is recording is never stopped).  A camera
whose enabled flag was cleared is filtered out of the poll's query and is
not stopped (see the counterexample). -/
theorem checkCameras_stops_enabled_unreachable :
    ∀ (startOk : Nat → Bool) (cams : List Camera) (rec : List Nat) (c : Camera),
      (cams.map Camera.id).Nodup → c ∈ cams → c.is_enabled = true →
      c.status ≠ "online" → c.status ≠ "recording" → c.id ∈ rec →
      c.id ∈ (checkCameras startOk cams rec).stops ∧
      c.id ∉ (checkCameras startOk cams rec).recording ∧
      { c with is_recording := false } ∈ (checkCameras startOk cams rec).cameras := by
  intro startOk cams
  induction cams with
  | nil =>
    intro rec c _ hc
    exact absurd hc (List.not_mem_nil c)
  | cons d rest ih =>
    intro rec c hnd hc hen hon hrec hmem
    rw [List.map_cons, List.nodup_cons] at hnd
    obtain ⟨hnd1, hnd2⟩ := hnd
    rcases List.mem_cons.mp hc with rfl | hcr
    · have hS : ¬((c.status = "online" ∨ c.status = "recording") ∧ c.is_enabled = true) := by
        rintro ⟨h1 | h1, _⟩
        · exact hon h1
        · exact hrec h1
      have hproc : processCamera startOk c rec =
          ({ c with is_recording := false }, recDiscard rec c.id, [], [c.id]) := by
        simp only [processCamera]
        split_ifs with h1 h2
        · exact absurd h1.1 hS
        · simp [stopAutoRecording, hrec]
        · exact absurd ⟨hS, hmem⟩ h2
      have hrest : ∀ x ∈ rest, x.id ≠ c.id := by
        intro x hx h
        exact hnd1 (h ▸ List.mem_map_of_mem Camera.id hx)
      have hnotmem : c.id ∉ recDiscard rec c.id := by
        simp [recDiscard]
      refine ⟨?_, ?_, ?_⟩
      · simp [checkCameras, checkLoop, hen, hproc]
      · intro habs
        have hin : c.id ∈ (checkLoop startOk rest (recDiscard rec c.id)).recording := by
          simpa [checkCameras, checkLoop, hen, hproc] using habs
        exact hnotmem ((checkLoop_mem_rec startOk c.id rest _ hrest).mp hin)
      · simp [checkCameras, checkLoop, hen, hproc]
    · have hdc : d.id ≠ c.id := by
        intro h
        exact hnd1 (h ▸ List.mem_map_of_mem Camera.id hcr)
      by_cases hden : d.is_enabled
      · have hmem' : c.id ∈ (processCamera startOk d rec).2.1 :=
          (processCamera_mem_rec startOk d rec c.id hdc).mpr hmem
        have hres := ih (processCamera startOk d rec).2.1 c hnd2 hcr hen hon hrec hmem'
        refine ⟨?_, ?_, ?_⟩
        · simpa [checkCameras, checkLoop, hden] using Or.inr hres.1
        · simpa [checkCameras, checkLoop, hden] using hres.2.1
        · simpa [checkCameras, checkLoop, hden] using Or.inr hres.2.2
      · have hres := ih rec c hnd2 hcr hen hon hrec hmem
        refine ⟨?_, ?_, ?_⟩
        · simpa [checkCameras, checkLoop, hden] using hres.1
        · simpa [checkCameras, checkLoop, hden] using hres.2.1
        · simpa [checkCameras, checkLoop, hden] using Or.inr hres.2.2

/-- Witness: an enabled camera in status error that is still in the
recording set is stopped and removed by the poll. -/
theorem checkCameras_stops_enabled_unreachable_witness :
    2 ∈ (checkCameras (fun _ => true) [⟨2, true, "error", true⟩] [2]).stops ∧
    2 ∉ (checkCameras (fun _ => true) [⟨2, true, "error", true⟩] [2]).recording ∧
    (⟨2, true, "error", false⟩ : Camera) ∈
      (checkCameras (fun _ => true) [⟨2, true, "error", true⟩] [2]).cameras :=
  checkCameras_stops_enabled_unreachable (fun _ => true)
    [⟨2, true, "error", true⟩] [2] ⟨2, true, "error", true⟩
    (by decide) (by decide) rfl (by decide) (by decide) (by decide)

/-- In a list sorted by a Nat key, find? returns a hit of minimal key. -/
theorem find?_min_of_sorted {α : Type} (key : α → Nat) (q : α → Bool) :
    ∀ (l : List α), l.Pairwise (fun a b => key a ≤ key b) →
      ∀ r, l.find? q = some r → ∀ g ∈ l, q g = true → key r ≤ key g := by
  intro l
  induction l with
  | nil => intro _ r h; simp at h
  | cons a t ih =>
    intro hp r hfind g hg hq
    rcases List.pairwise_cons.mp hp with ⟨ha, ht⟩
    rw [List.find?_cons] at hfind
    by_cases hqa : q a
    · rw [hqa] at hfind
      have hra : a = r := by simpa using hfind
      rcases List.mem_cons.mp hg with rfl | hgt
      · exact le_of_eq (congrArg key hra.symm)
      · exact hra ▸ ha g hgt
    · rw [Bool.not_eq_true] at hqa
      rw [hqa] at hfind
      rcases List.mem_cons.mp hg with rfl | hgt
      · exact absurd hq (by simp [hqa])
      · exact ih ht r hfind g hgt hq

/-- C9: get_best_available_pool walks the pools in ascending priority
order and returns the first available one (enabled, status active, free
space at or above the min_free floor): the result is an available pool of
minimal priority among the available ones, it is none exactly when no pool
is available, and no further selection criterion is involved. -/
theorem getBestAvailablePool_priority_first_fit :
    ∀ pools : List StoragePool,
      (getBestAvailablePool pools = none ↔ ∀ p ∈ pools, p.isAvailable = false) ∧
      ∀ r, getBestAvailablePool pools = some r →
        r.isAvailable = true ∧ r ∈ pools ∧
        ∀ p ∈ pools, p.isAvailable = true → r.priority ≤ p.priority := by
  intro pools
  have hperm : (getAllPools pools).Perm pools :=
    List.perm_insertionSort (fun a b : StoragePool => a.priority ≤ b.priority) pools
  constructor
  · rw [getBestAvailablePool, List.find?_eq_none]
    constructor
    · intro h p hp
      simpa using h p (hperm.mem_iff.mpr hp)
    · intro h p hp
      simpa using h p (hperm.mem_iff.mp hp)
  · intro r hr
    have hq := List.find?_some hr
    have hmem := List.mem_of_find?_eq_some hr
    refine ⟨hq, hperm.mem_iff.mp hmem, ?_⟩
    intro p hp hpav
    have hsorted : (getAllPools pools).Pairwise (fun a b => a.priority ≤ b.priority) := by
      haveI : IsTotal StoragePool (fun a b => a.priority ≤ b.priority) :=
        ⟨fun a b => Nat.le_total _ _⟩
      haveI : IsTrans StoragePool (fun a b => a.priority ≤ b.priority) :=
        ⟨fun a b c => Nat.le_trans⟩
      exact List.sorted_insertionSort _ pools
    exact find?_min_of_sorted StoragePool.priority StoragePool.isAvailable
      (getAllPools pools) hsorted r hr p (hperm.mem_iff.mpr hp) hpav

/-- Witness: of two pools where the lower-priority-number one is full, the
selector returns the available higher-priority-number pool. -/
theorem getBestAvailablePool_priority_first_fit_witness :
    (⟨1, "/a", 0, 10, 30, 200, false, true, "active", 0, 0, 100 * 1024 ^ 3⟩ :
        StoragePool).isAvailable = true ∧
    (⟨1, "/a", 0, 10, 30, 200, false, true, "active", 0, 0, 100 * 1024 ^ 3⟩ :
        StoragePool) ∈
      [⟨1, "/a", 0, 10, 30, 200, false, true, "active", 0, 0, 100 * 1024 ^ 3⟩,
       ⟨2, "/b", 0, 10, 30, 50, false, true, "full", 0, 0, 100 * 1024 ^ 3⟩] ∧
    ∀ p ∈ [(⟨1, "/a", 0, 10, 30, 200, false, true, "active", 0, 0, 100 * 1024 ^ 3⟩ :
            StoragePool),
           ⟨2, "/b", 0, 10, 30, 50, false, true, "full", 0, 0, 100 * 1024 ^ 3⟩],
      p.isAvailable = true →
      (⟨1, "/a", 0, 10, 30, 200, false, true, "active", 0, 0, 100 * 1024 ^ 3⟩ :
        StoragePool).priority ≤ p.priority :=
  (getBestAvailablePool_priority_first_fit
    [⟨1, "/a", 0, 10, 30, 200, false, true, "active", 0, 0, 100 * 1024 ^ 3⟩,
     ⟨2, "/b", 0, 10, 30, 50, false, true, "full", 0, 0, 100 * 1024 ^ 3⟩]).2
    ⟨1, "/a", 0, 10, 30, 200, false, true, "active", 0, 0, 100 * 1024 ^ 3⟩
    (by decide)

/-- The retention pass never adds a locked file to the deleted list. -/
theorem retention_locked_not_deleted (cutoff : Nat) (delOk : RecordingFile → Bool) :
    ∀ (files : List RecordingFile) (st : CleanupState) (f : RecordingFile),
      f.is_locked = true → f ∉ st.deleted →
      f ∉ (files.foldl (retentionStep cutoff delOk) st).deleted := by
  intro files
  induction files with
  | nil => intro st f hl hn; exact hn
  | cons g rest ih =>
    intro st f hl hn
    rw [List.foldl_cons]
    apply ih _ f hl
    simp only [retentionStep]
    split_ifs with h1 h2
    · intro hmem
      rcases List.mem_append.mp hmem with hmem1 | hmem2
      · exact hn hmem1
      · rw [List.mem_singleton.mp hmem2] at hl
        rw [hl] at h1
        exact absurd h1.2 (by simp)
    · exact hn
    · exact hn

/-- The capacity loop never adds a locked file to the deleted list. -/
theorem capacityLoop_locked_not_deleted (maxB : Nat) (delOk : RecordingFile → Bool) :
    ∀ (fuel : Nat) (st : CleanupState) (total : Nat) (out : CleanupState),
      capacityLoop maxB delOk fuel st total = some out →
      ∀ f, f.is_locked = true → f ∉ st.deleted → f ∉ out.deleted := by
  intro fuel
  induction fuel with
  | zero => intro st total out h; simp [capacityLoop] at h
  | succ n ih =>
    intro st total out h f hl hn
    rw [capacityLoop] at h
    by_cases hc : total > maxB ∧ st.files ≠ []
    · rw [if_pos hc] at h
      cases hfind : st.files.find? (fun f => !f.is_locked) with
      | none =>
        rw [hfind] at h
        obtain rfl : st = out := by simpa using h
        exact hn
      | some g =>
        rw [hfind] at h
        dsimp only at h
        have hg : g.is_locked = false := by simpa using List.find?_some hfind
        by_cases hd : delOk g
        · rw [if_pos hd] at h
          apply ih _ _ _ h f hl
          intro hmem
          rcases List.mem_append.mp hmem with hmem1 | hmem2
          · exact hn hmem1
          · rw [List.mem_singleton.mp hmem2] at hl
            rw [hl] at hg
            simp at hg
        · rw [if_neg hd] at h
          exact ih _ _ _ h f hl hn
    · rw [if_neg hc] at h
      obtain rfl : st = out := by simpa using h
      exact hn

/-- cleanup_camera never adds a locked file to its deleted list. -/
theorem cleanupCamera_locked_not_deleted (cid : Nat) (delOk : RecordingFile → Bool) :
    ∀ (files : List RecordingFile) (acc : List RecordingFile × Nat) (f : RecordingFile),
      f.is_locked = true → f ∉ acc.1 →
      f ∉ (files.foldl (cleanupCameraStep cid delOk) acc).1 := by
  intro files
  induction files with
  | nil => intro acc f hl hn; exact hn
  | cons g rest ih =>
    intro acc f hl hn
    rw [List.foldl_cons]
    apply ih _ f hl
    simp only [cleanupCameraStep]
    split_ifs with h1 h2
    · intro hmem
      rcases List.mem_append.mp hmem with hmem1 | hmem2
      · exact hn hmem1
      · rw [List.mem_singleton.mp hmem2] at hl
        rw [hl] at h1
        exact absurd h1.2 (by simp)
    · exact hn
    · exact hn

/-- The ensure_space eviction walk never deletes a locked file. -/
theorem ensureSpaceLoop_locked_not_deleted (needed : Nat) (delOk : RecordingFile → Bool) :
    ∀ (files : List RecordingFile) (freed : Nat) (del : List RecordingFile)
      (f : RecordingFile),
      f.is_locked = true → f ∉ del →
      f ∉ (ensureSpaceLoop needed delOk files freed del).2 := by
  intro files
  induction files with
  | nil => intro freed del f hl hn; exact hn
  | cons g rest ih =>
    intro freed del f hl hn
    rw [ensureSpaceLoop]
    by_cases hg : g.is_locked
    · rw [if_pos hg]
      exact ih _ _ f hl hn
    · rw [if_neg hg]
      have hnotin : f ∉ del ++ [g] := by
        intro hmem
        rcases List.mem_append.mp hmem with hmem1 | hmem2
        · exact hn hmem1
        · rw [List.mem_singleton.mp hmem2] at hl
          exact hg (by simp [hl])
      by_cases hd : delOk g
      · rw [if_pos hd]
        by_cases hcov : freed + g.size_bytes ≥ needed
        · rw [if_pos hcov]
          exact hnotin
        · rw [if_neg hcov]
          exact ih _ _ f hl hnotin
      · rw [if_neg hd]
        exact ih _ _ f hl hn

/-- C4: a locked file is never deleted by any eviction path, whatever its
age, the size pressure, or which deletions succeed: not by the retention
phase of cleanup, not by its capacity phase, not by cleanup_camera, and
not by ensure_space. -/
theorem locked_never_deleted :
    ∀ f : RecordingFile, f.is_locked = true →
      (∀ cutoff delOk files, f ∉ (retentionPhase cutoff delOk files).deleted) ∧
      (∀ maxB delOk fuel st total out,
          capacityLoop maxB delOk fuel st total = some out →
          f ∉ st.deleted → f ∉ out.deleted) ∧
      (∀ cid delOk files, f ∉ (StorageManager.cleanupCamera cid delOk files).1) ∧
      (∀ freeB reqB delOk files,
          f ∉ (StorageManager.ensureSpace freeB reqB delOk files).2) := by
  intro f hl
  refine ⟨?_, ?_, ?_, ?_⟩
  · intro cutoff delOk files
    exact retention_locked_not_deleted cutoff delOk files ⟨files, [], 0⟩ f hl
      (List.not_mem_nil f)
  · intro maxB delOk fuel st total out h hst
    exact capacityLoop_locked_not_deleted maxB delOk fuel st total out h f hl hst
  · intro cid delOk files
    exact cleanupCamera_locked_not_deleted cid delOk files ([], 0) f hl
      (List.not_mem_nil f)
  · intro freeB reqB delOk files
    rw [StorageManager.ensureSpace]
    by_cases hfree : freeB ≥ reqB
    · rw [if_pos hfree]
      exact List.not_mem_nil f
    · rw [if_neg hfree]
      exact ensureSpaceLoop_locked_not_deleted _ delOk _ 0 [] f hl (List.not_mem_nil f)

/-- Witness: a concrete locked file survives all four eviction paths. -/
theorem locked_never_deleted_witness :
    (⟨"locked.mkv", 5, 1, some 1, true⟩ : RecordingFile) ∉
      (retentionPhase 100 (fun _ => true) [⟨"locked.mkv", 5, 1, some 1, true⟩]).deleted ∧
    (⟨"locked.mkv", 5, 1, some 1, true⟩ : RecordingFile) ∉
      (⟨[⟨"locked.mkv", 5, 1, some 1, true⟩], [], 0⟩ : CleanupState).deleted ∧
    (⟨"locked.mkv", 5, 1, some 1, true⟩ : RecordingFile) ∉
      (StorageManager.cleanupCamera 1 (fun _ => true)
        [⟨"locked.mkv", 5, 1, some 1, true⟩]).1 ∧
    (⟨"locked.mkv", 5, 1, some 1, true⟩ : RecordingFile) ∉
      (StorageManager.ensureSpace 0 4 (fun _ => true)
        [⟨"locked.mkv", 5, 1, some 1, true⟩]).2 :=
  ⟨(locked_never_deleted ⟨"locked.mkv", 5, 1, some 1, true⟩ rfl).1 100 (fun _ => true) _,
   (locked_never_deleted ⟨"locked.mkv", 5, 1, some 1, true⟩ rfl).2.1 0 (fun _ => true) 1
     ⟨[⟨"locked.mkv", 5, 1, some 1, true⟩], [], 0⟩ 5
     ⟨[⟨"locked.mkv", 5, 1, some 1, true⟩], [], 0⟩ (by decide) (by decide),
   (locked_never_deleted ⟨"locked.mkv", 5, 1, some 1, true⟩ rfl).2.2.1 1 (fun _ => true) _,
   (locked_never_deleted ⟨"locked.mkv", 5, 1, some 1, true⟩ rfl).2.2.2 0 4 (fun _ => true) _⟩

/-- totalSize distributes over cons. -/
theorem totalSize_cons (f : RecordingFile) (l : List RecordingFile) :
    totalSize (f :: l) = f.size_bytes + totalSize l := by
  simp [totalSize]

/-- Erasing a member subtracts its size from the total. -/
theorem totalSize_erase {f : RecordingFile} {l : List RecordingFile} (h : f ∈ l) :
    totalSize (l.erase f) = totalSize l - f.size_bytes := by
  have hp := List.perm_cons_erase h
  have hsum : totalSize l = f.size_bytes + totalSize (l.erase f) := by
    simpa [totalSize] using (hp.map RecordingFile.size_bytes).sum_eq
  omega

/-- A member's size is at most the total. -/
theorem size_le_totalSize {f : RecordingFile} {l : List RecordingFile} (h : f ∈ l) :
    f.size_bytes ≤ totalSize l := by
  have hp := List.perm_cons_erase h
  have hsum : totalSize l = f.size_bytes + totalSize (l.erase f) := by
    simpa [totalSize] using (hp.map RecordingFile.size_bytes).sum_eq
  omega

/-- Full characterisation of the capacity loop when every unlink succeeds
and the file list is sorted with distinct creation times: with fuel beyond
the list length the loop completes; the deleted sequence extends the
already-deleted prefix with unlocked members of the list in strictly
ascending creation-time order; every deletion happens while still over
budget (the take-prefix condition); sizes are conserved; and on exit the
remaining total is within budget or only locked files remain. -/
theorem capacityLoop_always_spec (maxB : Nat) :
    ∀ (fuel : Nat) (l d : List RecordingFile) (fr : Nat),
      l.length < fuel →
      l.Pairwise (fun a b => a.created_at ≤ b.created_at) →
      l.Pairwise (fun a b => a.created_at ≠ b.created_at) →
      ∃ capDel st,
        capacityLoop maxB (fun _ => true) fuel ⟨l, d, fr⟩ (totalSize l) = some st ∧
        st.deleted = d ++ capDel ∧
        st.freed_bytes = fr + totalSize capDel ∧
        (∀ f ∈ capDel, f ∈ l ∧ f.is_locked = false) ∧
        capDel.Pairwise (fun a b => a.created_at < b.created_at) ∧
        (∀ i < capDel.length, maxB < totalSize l - totalSize (capDel.take i)) ∧
        totalSize st.files = totalSize l - totalSize capDel ∧
        (totalSize st.files ≤ maxB ∨ ∀ f ∈ st.files, f.is_locked = true) := by
  intro fuel
  induction fuel with
  | zero => intro l d fr h; exact absurd h (Nat.not_lt_zero _)
  | succ n ih =>
    intro l d fr hlen hs hne
    by_cases hc : totalSize l > maxB ∧ l ≠ []
    · cases hfind : l.find? (fun f => !f.is_locked) with
      | none =>
        have heq : capacityLoop maxB (fun _ => true) (n + 1) ⟨l, d, fr⟩ (totalSize l) =
            some ⟨l, d, fr⟩ := by
          rw [capacityLoop, if_pos hc]
          rw [show (⟨l, d, fr⟩ : CleanupState).files = l from rfl, hfind]
        have hall : ∀ f ∈ l, f.is_locked = true := by
          intro f hf
          have := List.find?_eq_none.mp hfind f hf
          simpa using this
        refine ⟨[], ⟨l, d, fr⟩, heq, by simp, by simp [totalSize], by simp,
          List.Pairwise.nil, ?_, by simp [totalSize], Or.inr hall⟩
        intro i hi
        simp at hi
      | some g =>
        have hgmem : g ∈ l := List.mem_of_find?_eq_some hfind
        have hgunlock : g.is_locked = false := by simpa using List.find?_some hfind
        have herase_total : totalSize (l.erase g) = totalSize l - g.size_bytes :=
          totalSize_erase hgmem
        have hsize_le : g.size_bytes ≤ totalSize l := size_le_totalSize hgmem
        have heq : capacityLoop maxB (fun _ => true) (n + 1) ⟨l, d, fr⟩ (totalSize l) =
            capacityLoop maxB (fun _ => true) n
              ⟨l.erase g, d ++ [g], fr + g.size_bytes⟩ (totalSize (l.erase g)) := by
          rw [capacityLoop, if_pos hc]
          rw [show (⟨l, d, fr⟩ : CleanupState).files = l from rfl, hfind]
          dsimp only
          rw [if_pos rfl, herase_total]
        have hsub : (l.erase g).Sublist l := List.erase_sublist g l
        have hs' := hs.sublist hsub
        have hne' := hne.sublist hsub
        have hlen' : (l.erase g).length < n := by
          have hle := List.length_erase_of_mem hgmem
          have hpos : 0 < l.length := List.length_pos.mpr (by
            intro h
            subst h
            simp at hgmem)
          omega
        obtain ⟨capDel', st, heq', hdel, hfr, hmems, hpw, htake, htot, hstop⟩ :=
          ih (l.erase g) (d ++ [g]) (fr + g.size_bytes) hlen' hs' hne'
        refine ⟨g :: capDel', st, heq.trans heq', ?_, ?_, ?_, ?_, ?_, htot.trans ?_, hstop⟩
        · rw [hdel]
          simp
        · rw [hfr, totalSize_cons]
          omega
        · intro f hf
          rcases List.mem_cons.mp hf with rfl | hf'
          · exact ⟨hgmem, hgunlock⟩
          · obtain ⟨hfin, hfl⟩ := hmems f hf'
            exact ⟨hsub.subset hfin, hfl⟩
        · rw [List.pairwise_cons]
          refine ⟨?_, hpw⟩
          intro f hf
          obtain ⟨hfin, hfl⟩ := hmems f hf
          have hfinl : f ∈ l := hsub.subset hfin
          have hle : g.created_at ≤ f.created_at :=
            find?_min_of_sorted RecordingFile.created_at (fun x => !x.is_locked) l hs g
              hfind f hfinl (by simp [hfl])
          have hnodup : l.Nodup := hne.imp (fun hab h => hab (by rw [h]))
          have hfg : f ≠ g := ((List.Nodup.mem_erase_iff hnodup).mp hfin).1
          have hsym : Symmetric (fun a b : RecordingFile => a.created_at ≠ b.created_at) :=
            fun a b h hh => h hh.symm
          have hneq : g.created_at ≠ f.created_at :=
            hne.forall hsym hgmem hfinl (fun h => hfg h.symm)
          exact lt_of_le_of_ne hle hneq
        · intro i hi
          cases i with
          | zero => simpa [totalSize] using hc.1
          | succ j =>
            have hj : j < capDel'.length := by simpa using hi
            have hstep := htake j hj
            rw [herase_total] at hstep
            rw [List.take_succ_cons, totalSize_cons]
            omega
        · rw [herase_total, totalSize_cons]
          omega
    · have heq : capacityLoop maxB (fun _ => true) (n + 1) ⟨l, d, fr⟩ (totalSize l) =
          some ⟨l, d, fr⟩ := by
        rw [capacityLoop, if_neg hc]
      have hlast : totalSize l ≤ maxB ∨ ∀ f ∈ l, f.is_locked = true := by
        rcases not_and_or.mp hc with h | h
        · exact Or.inl (Nat.le_of_not_lt h)
        · left
          rw [not_not.mp h]
          simp [totalSize]
      refine ⟨[], ⟨l, d, fr⟩, heq, by simp, by simp [totalSize], by simp,
        List.Pairwise.nil, ?_, by simp [totalSize], hlast⟩
      intro i hi
      simp at hi

/-- C1: the capacity phase of cleanup deletes unlocked files one at a
time in strictly ascending creation-time order, only ever deleting while
the remaining total still exceeds max_storage, and halts with the total
under budget or only locked files left; and on the end-to-end scenario (a
10 GiB budget, five unlocked 3 GB files with ascending creation times,
none past retention) cleanup deletes exactly the two oldest files and
reports deleted_count 2, freed_bytes 6000000000, with three files and
9000000000 bytes remaining. -/
theorem cleanup_capacity_fifo :
    (∀ (maxB : Nat) (l : List RecordingFile),
      l.Pairwise (fun a b => a.created_at ≤ b.created_at) →
      l.Pairwise (fun a b => a.created_at ≠ b.created_at) →
      ∃ st, capacityLoop maxB (fun _ => true) (l.length + 1) ⟨l, [], 0⟩
          (totalSize l) = some st ∧
        st.deleted.Pairwise (fun a b => a.created_at < b.created_at) ∧
        (∀ f ∈ st.deleted, f ∈ l ∧ f.is_locked = false) ∧
        (∀ i < st.deleted.length, maxB < totalSize l - totalSize (st.deleted.take i)) ∧
        st.freed_bytes = totalSize st.deleted ∧
        totalSize st.files = totalSize l - totalSize st.deleted ∧
        (totalSize st.files ≤ maxB ∨ ∀ f ∈ st.files, f.is_locked = true)) ∧
    StorageManager.cleanup (10 * 1024 ^ 3) 0 (fun _ => true) 6
        [⟨"camera_1_f5.mkv", 3000000000, 50, some 1, false⟩,
         ⟨"camera_1_f1.mkv", 3000000000, 10, some 1, false⟩,
         ⟨"camera_1_f3.mkv", 3000000000, 30, some 1, false⟩,
         ⟨"camera_1_f2.mkv", 3000000000, 20, some 1, false⟩,
         ⟨"camera_1_f4.mkv", 3000000000, 40, some 1, false⟩] =
      some ⟨2, 6000000000, 3, 9000000000⟩ := by
  constructor
  · intro maxB l hs hne
    obtain ⟨capDel, st, heq, hdel, hfr, hmems, hpw, htake, htot, hstop⟩ :=
      capacityLoop_always_spec maxB (l.length + 1) l [] 0 (Nat.lt_succ_self _) hs hne
    have hcd : capDel = st.deleted := by simpa using hdel.symm
    subst hcd
    exact ⟨st, heq, hpw, hmems, htake, by simpa using hfr, htot, hstop⟩
  · decide

/-- Witness: the capacity-phase characterisation applied to a concrete
two-file list over a 7-byte budget. -/
theorem cleanup_capacity_fifo_witness :
    ∃ st, capacityLoop 7 (fun _ => true)
        ([(⟨"a.mkv", 5, 1, some 1, false⟩ : RecordingFile),
          ⟨"b.mkv", 5, 2, some 1, false⟩].length + 1)
        (⟨[⟨"a.mkv", 5, 1, some 1, false⟩, ⟨"b.mkv", 5, 2, some 1, false⟩], [], 0⟩ :
          CleanupState)
        (totalSize [⟨"a.mkv", 5, 1, some 1, false⟩, ⟨"b.mkv", 5, 2, some 1, false⟩]) =
        some st ∧
      st.deleted.Pairwise (fun a b => a.created_at < b.created_at) ∧
      (∀ f ∈ st.deleted,
        f ∈ [(⟨"a.mkv", 5, 1, some 1, false⟩ : RecordingFile),
             ⟨"b.mkv", 5, 2, some 1, false⟩] ∧ f.is_locked = false) ∧
      (∀ i < st.deleted.length,
        7 < totalSize [(⟨"a.mkv", 5, 1, some 1, false⟩ : RecordingFile),
            ⟨"b.mkv", 5, 2, some 1, false⟩] -
          totalSize (st.deleted.take i)) ∧
      st.freed_bytes = totalSize st.deleted ∧
      totalSize st.files =
        totalSize [(⟨"a.mkv", 5, 1, some 1, false⟩ : RecordingFile),
          ⟨"b.mkv", 5, 2, some 1, false⟩] -
          totalSize st.deleted ∧
      (totalSize st.files ≤ 7 ∨ ∀ f ∈ st.files, f.is_locked = true) :=
  cleanup_capacity_fifo.1 7
    [⟨"a.mkv", 5, 1, some 1, false⟩, ⟨"b.mkv", 5, 2, some 1, false⟩]
    (by decide) (by decide)


/-- With enough fuel the structural digit extractor agrees with
Nat.digits base 10. -/
theorem digitsRevFuel_eq_digits : ∀ (fuel n : Nat), n ≤ fuel →
    digitsRevFuel fuel n = Nat.digits 10 n := by
  intro fuel
  induction fuel with
  | zero =>
    intro n h
    obtain rfl : n = 0 := Nat.le_zero.mp h
    simp [digitsRevFuel]
  | succ m ih =>
    intro n h
    by_cases hn : n = 0
    · subst hn
      simp [digitsRevFuel]
    · rw [digitsRevFuel, if_neg hn]
      rw [Nat.digits_def' (by norm_num : (1:ℕ) < 10) (Nat.pos_of_ne_zero hn)]
      have hdiv : n / 10 ≤ m := by
        have := Nat.div_lt_self (Nat.pos_of_ne_zero hn) (by norm_num : (1:ℕ) < 10)
        omega
      rw [ih (n / 10) hdiv]

/-- natChars in terms of Nat.digits. -/
theorem natChars_eq_digits (n : Nat) :
    natChars n = if n = 0 then ['0'] else (Nat.digits 10 n).reverse.map digitChar := by
  rw [natChars, digitsRevFuel_eq_digits n n (Nat.le_refl n)]

/-- The code of a digit character. -/
theorem digitChar_toNat {d : Nat} (h : d < 10) : (digitChar d).toNat = 48 + d := by
  interval_cases d <;> rfl

/-- Every character of str(n) is a decimal digit character. -/
theorem natChars_digit_range (n : Nat) :
    ∀ c ∈ natChars n, 48 ≤ c.toNat ∧ c.toNat ≤ 57 := by
  intro c hc
  rw [natChars_eq_digits] at hc
  by_cases hn : n = 0
  · subst hn
    simp at hc
    subst hc
    exact ⟨by decide, by decide⟩
  · rw [if_neg hn] at hc
    obtain ⟨d, hd, rfl⟩ := List.mem_map.mp hc
    have hd10 : d < 10 :=
      Nat.digits_lt_base (by norm_num) (List.mem_reverse.mp hd)
    rw [digitChar_toNat hd10]
    omega

/-- Every character of a zero-padded field is a digit character. -/
theorem pad2_digit_range (n : Nat) :
    ∀ c ∈ pad2 n, 48 ≤ c.toNat ∧ c.toNat ≤ 57 := by
  intro c hc
  rw [pad2] at hc
  by_cases h : n < 10
  · rw [if_pos h] at hc
    rcases List.mem_cons.mp hc with rfl | hc'
    · exact ⟨by decide, by decide⟩
    · exact natChars_digit_range n c hc'
  · rw [if_neg h] at hc
    exact natChars_digit_range n c hc

/-- A string of digit characters contains no underscore. -/
theorem und_notin_of_range {s : List Char}
    (h : ∀ c ∈ s, 48 ≤ c.toNat ∧ c.toNat ≤ 57) : '_' ∉ s := by
  intro hmem
  have hr := h '_' hmem
  have h95 : ('_').toNat = 95 := rfl
  omega

/-- str(n) is never empty. -/
theorem natChars_ne_nil (n : Nat) : natChars n ≠ [] := by
  rw [natChars_eq_digits]
  by_cases hn : n = 0
  · simp [hn]
  · rw [if_neg hn]
    simp [Nat.digits_ne_nil_iff_ne_zero.mpr hn]

/-- Splitting an underscore-free string is the identity. -/
theorem splitU_no_und : ∀ l : List Char, '_' ∉ l → splitU l = [l] := by
  intro l
  induction l with
  | nil => intro _; rfl
  | cons c rest ih =>
    intro h
    have hc : ¬(c = '_') := fun hh => h (hh ▸ List.mem_cons_self c rest)
    have hrest : '_' ∉ rest := fun hh => h (List.mem_cons_of_mem c hh)
    rw [splitU, if_neg hc, ih hrest]

/-- Splitting peels at the first underscore when the prefix has none. -/
theorem splitU_append : ∀ (a b : List Char), '_' ∉ a →
    splitU (a ++ '_' :: b) = a :: splitU b := by
  intro a
  induction a with
  | nil =>
    intro b _
    rw [List.nil_append, splitU, if_pos rfl]
  | cons c a' ih =>
    intro b h
    have hc : ¬(c = '_') := fun hh => h (hh ▸ List.mem_cons_self c a')
    have ha' : '_' ∉ a' := fun hh => h (List.mem_cons_of_mem c hh)
    rw [List.cons_append, splitU, if_neg hc, ih b ha']

/-- foldl only depends on the function's values on list members. -/
theorem foldl_congr_mem {α β : Type} (f g : β → α → β) :
    ∀ (l : List α) (b : β), (∀ a ∈ l, ∀ x, f x a = g x a) →
      l.foldl f b = l.foldl g b := by
  intro l
  induction l with
  | nil => intro b _; rfl
  | cons a t ih =>
    intro b h
    rw [List.foldl_cons, List.foldl_cons, h a (List.mem_cons_self a t) b]
    exact ih _ (fun x hx => h x (List.mem_cons_of_mem a hx))

/-- Folding big-endian decimal digits computes the value. -/
theorem foldl_digits_reversed :
    ∀ (ds : List Nat) (a : Nat),
      List.foldl (fun x d => 10 * x + d) a ds.reverse =
        a * 10 ^ ds.length + Nat.ofDigits 10 ds := by
  intro ds
  induction ds with
  | nil => intro a; simp [Nat.ofDigits_nil]
  | cons d ds ih =>
    intro a
    rw [List.reverse_cons, List.foldl_append, ih a]
    simp only [List.foldl_cons, List.foldl_nil, Nat.ofDigits_cons, List.length_cons]
    ring

/-- int(str(n)) = n: the parser inverts decimal printing. -/
theorem pyInt?_natChars (n : Nat) : pyInt? (natChars n) = some n := by
  by_cases hn : n = 0
  · subst hn
    decide
  · have hne := natChars_ne_nil n
    have hdig : (natChars n).all isDigitCh = true := by
      rw [List.all_eq_true]
      intro c hc
      have hr := natChars_digit_range n c hc
      simp [isDigitCh]
      omega
    rw [pyInt?, if_pos ⟨hne, hdig⟩]
    rw [natChars_eq_digits, if_neg hn]
    rw [List.foldl_map]
    rw [foldl_congr_mem _ (fun x d => 10 * x + d) _ 0 ?hcong]
    case hcong =>
      intro d hd x
      have hd10 : d < 10 :=
        Nat.digits_lt_base (by norm_num) (List.mem_reverse.mp hd)
      rw [digitChar_toNat hd10]
      dsimp only
      omega
    rw [foldl_digits_reversed]
    simp [Nat.ofDigits_digits]

/-- The stem of name.mkv is name. -/
theorem stemOf_mkv (base : List Char) :
    stemOf (base ++ ".mkv".data) = base := by
  have hmem : '.' ∈ base ++ ".mkv".data := List.mem_append.mpr (Or.inr (by decide))
  rw [stemOf, if_pos hmem]
  rw [show (base ++ ".mkv".data).reverse = ['v', 'k', 'm', '.'] ++ base.reverse by
    rw [List.reverse_append]; rfl]
  rw [show List.dropWhile (fun c => decide (c ≠ '.'))
      (['v', 'k', 'm', '.'] ++ base.reverse) = '.' :: base.reverse from rfl]
  simp

/-- The date field consists of digit characters. -/
theorem dateChars_digit_range (y mo d : Nat) :
    ∀ c ∈ dateChars y mo d, 48 ≤ c.toNat ∧ c.toNat ≤ 57 := by
  intro c hc
  rw [dateChars] at hc
  rcases List.mem_append.mp hc with hc1 | hc2
  · rcases List.mem_append.mp hc1 with hc3 | hc4
    · exact natChars_digit_range y c hc3
    · exact pad2_digit_range mo c hc4
  · exact pad2_digit_range d c hc2

/-- The time field consists of digit characters. -/
theorem timeChars_digit_range (h mi s : Nat) :
    ∀ c ∈ timeChars h mi s, 48 ≤ c.toNat ∧ c.toNat ≤ 57 := by
  intro c hc
  rw [timeChars] at hc
  rcases List.mem_append.mp hc with hc1 | hc2
  · rcases List.mem_append.mp hc1 with hc3 | hc4
    · exact pad2_digit_range h c hc3
    · exact pad2_digit_range mi c hc4
  · exact pad2_digit_range s c hc2

/-- C10: the filename the recorder generates round-trips through the file
scanner's camera-id inference: for every camera id and timestamp, parsing
camera_(id)_(YYYYMMDD)_(HHMMSS).mkv with RecordingFile.from_path's rule
(stem, camera_ check, split on underscores, int on the second part) yields
exactly the camera id that produced the file. -/
theorem segment_filename_roundtrip :
    ∀ cid y mo d h mi s : Nat,
      extractCameraId (segmentFilename cid y mo d h mi s) = some cid := by
  intro cid y mo d h mi s
  have hbase_shape : segmentFilename cid y mo d h mi s =
      ("camera_".data ++ natChars cid ++ '_' :: strftimeTS y mo d h mi s) ++
        ".mkv".data := by
    simp [segmentFilename, List.append_assoc]
  have hstem : stemOf (segmentFilename cid y mo d h mi s) =
      "camera_".data ++ natChars cid ++ '_' :: strftimeTS y mo d h mi s := by
    rw [hbase_shape]
    exact stemOf_mkv _
  have htake : ("camera_".data ++ natChars cid ++ '_' :: strftimeTS y mo d h mi s).take 7 =
      "camera_".data := by
    rw [List.append_assoc]
    rw [show (7 : Nat) = ("camera_".data : List Char).length from rfl]
    rw [List.take_left]
  have hsplit : splitU ("camera_".data ++ natChars cid ++ '_' :: strftimeTS y mo d h mi s) =
      ["camera".data, natChars cid, dateChars y mo d, timeChars h mi s] := by
    rw [show ("camera_".data ++ natChars cid ++ '_' :: strftimeTS y mo d h mi s :
          List Char) =
        "camera".data ++ '_' :: (natChars cid ++ '_' :: strftimeTS y mo d h mi s) from rfl]
    rw [splitU_append _ _ (by decide)]
    rw [splitU_append _ _ (und_notin_of_range (natChars_digit_range cid))]
    rw [strftimeTS]
    rw [splitU_append _ _ (und_notin_of_range (dateChars_digit_range y mo d))]
    rw [splitU_no_und _ (und_notin_of_range (timeChars_digit_range h mi s))]
  simp only [extractCameraId, hstem]
  rw [htake, if_pos rfl, hsplit]
  exact pyInt?_natChars cid


/-- C3 counterexample: camera 1 has a primary assignment to the pool at
/pool and the global recordings dir is /recs; the segment file produced by
start_recording and _start_new_segment lives under
/recs/camera_1/camera_1_20240102_030405.mkv, which is not the
pool-resolved dated path .../continuous/2024/01/02/... the claim
prescribes, and does not even lie under the assigned pool's path. -/
theorem segment_path_ignores_pool :
    segmentPath (cameraDir "/recs".data 1) 1 2024 1 2 3 4 5 ≠
      getRecordingDir [⟨1, 7, true⟩]
        [⟨7, "/pool", 0, 10, 30, 100, false, true, "active", 100, 0, 100⟩]
        "/recs".data 1 2024 1 2 ++ '/' :: segmentFilename 1 2024 1 2 3 4 5 ∧
    (segmentPath (cameraDir "/recs".data 1) 1 2024 1 2 3 4 5).take 5 ≠
      "/pool".data := by
  decide

/-- C3 (amended): segments are written to
recordings_dir/camera_(id)/camera_(id)_(YYYYMMDD)_(HHMMSS).mkv: the
directory start_recording hands the recorder is the global recordings dir
plus camera_(id), with no pool resolution and no dated subdirectories, so
the produced path always starts with the global recordings dir; the
pool-resolved dated layout pool_path/camera_(id)/continuous/Y/M/D is what
get_recording_path computes (and it does start with the assigned pool's
path), but start_recording never consults it. -/
theorem segment_path_layout :
    (∀ (recordingsDir : List Char) (cid y mo d h mi s : Nat),
      segmentPath (cameraDir recordingsDir cid) cid y mo d h mi s =
        recordingsDir ++ '/' :: ("camera_".data ++ natChars cid) ++
          '/' :: segmentFilename cid y mo d h mi s ∧
      (segmentPath (cameraDir recordingsDir cid) cid y mo d h mi s).take
          recordingsDir.length = recordingsDir) ∧
    (∀ (asg : List Assignment) (pools : List StoragePool)
        (recordingsDir : List Char) (p : StoragePool) (cid y mo d : Nat),
      getCameraPool asg pools cid = some p →
      (getRecordingDir asg pools recordingsDir cid y mo d).take p.path.data.length =
        p.path.data) := by
  constructor
  · intro recordingsDir cid y mo d h mi s
    refine ⟨rfl, ?_⟩
    rw [show segmentPath (cameraDir recordingsDir cid) cid y mo d h mi s =
        recordingsDir ++ ('/' :: ("camera_".data ++ natChars cid) ++
          '/' :: segmentFilename cid y mo d h mi s) from by
      simp [segmentPath, cameraDir]]
    rw [List.take_left]
  · intro asg pools recordingsDir p cid y mo d hp
    rw [show getRecordingDir asg pools recordingsDir cid y mo d =
        p.path.data ++ ('/' :: ("camera_".data ++ natChars cid) ++
          '/' :: "continuous".data ++ '/' :: natChars y ++ '/' :: pad2 mo ++
          '/' :: pad2 d) from by
      simp [getRecordingDir, hp]]
    rw [List.take_left]

/-- Witness: the pool-resolved directory for camera 1 (primary pool at
/pool) starts with the pool's path. -/
theorem segment_path_layout_witness :
    (getRecordingDir [⟨1, 7, true⟩]
        [⟨7, "/pool", 0, 10, 30, 100, false, true, "active", 100, 0, 100⟩]
        "/recs".data 1 2024 1 2).take
        (⟨7, "/pool", 0, 10, 30, 100, false, true, "active", 100, 0, 100⟩ :
          StoragePool).path.data.length =
      (⟨7, "/pool", 0, 10, 30, 100, false, true, "active", 100, 0, 100⟩ :
        StoragePool).path.data :=
  segment_path_layout.2 [⟨1, 7, true⟩]
    [⟨7, "/pool", 0, 10, 30, 100, false, true, "active", 100, 0, 100⟩]
    "/recs".data
    ⟨7, "/pool", 0, 10, 30, 100, false, true, "active", 100, 0, 100⟩
    1 2024 1 2 (by decide)
